import Mathlib

/-!
Verification of the chat-widget repository (three JavaScript variants of the
same widget: `src/static/app.js`, `src/unnamed/part_000`, `src/unnamed/part_001`).

Strings are modelled as `List Char` (Lean 4 `String` wraps `List Char`), and
each regex replacement of `markdownToHtml` is embedded as a dedicated scanner
with JavaScript `String.replace` semantics for that regex: global scanning is
left to right, on a failed attempt the scan advances one character, and the
scan resumes right after each replacement.
-/

/-- A conversation turn as the handlers push it onto `history`:
`{ sender: "Usuario" | "Bot", text }`. -/
structure Turn where
  sender : String
  text : String
deriving DecidableEq

/-- How a message's content region is filled: via `innerHTML` (parsed as
markup) or via `textContent` (inert text). -/
inductive ContentNode where
  | html (markup : String)
  | textNode (s : String)
deriving DecidableEq

/-- What a render step puts into the chat box: a structured bubble node
(the `addMessage` of `app.js` / `part_000`) or a raw `innerHTML +=` chunk
(`part_001`). -/
inductive PageChunk where
  | bubble (cls avatar : String) (content : ContentNode)
  | rawHtml (s : String)
deriving DecidableEq

/-- `startsWithSeq pat l`: the literal characters `pat` occur at the head of
`l` (the regex-engine test for a literal at the scan position). -/
def startsWithSeq : List Char → List Char → Bool
  | [], _ => true
  | _ :: _, [] => false
  | a :: as, b :: bs => a == b && startsWithSeq as bs

theorem startsWithSeq_eq : ∀ (pat l : List Char),
    startsWithSeq pat l = true → l = pat ++ l.drop pat.length := by
  intro pat
  induction pat with
  | nil => intro l _; simp
  | cons a as ih =>
    intro l h
    cases l with
    | nil => simp [startsWithSeq] at h
    | cons b bs =>
      simp only [startsWithSeq, Bool.and_eq_true, beq_iff_eq] at h
      obtain ⟨h1, h2⟩ := h
      have := ih bs h2
      simp only [List.cons_append, List.length_cons, List.drop_succ_cons]
      exact List.cons_eq_cons.mpr ⟨h1.symm, this⟩

/-- Characters the JavaScript `\s` class matches (restricted to the ASCII
whitespace appearing in this repository's data). -/
def jsWhitespace (c : Char) : Bool := c.isWhitespace

/-- `splitLine l = (before, after)`: the characters before the first newline
and the characters after it (`(l, [])` when there is none).  This is the
`(.*?)(\n|$)` tail common to the heading and list-item regexes: the lazy
group stops at the first newline, which the match consumes, or at the end. -/
def splitLine : List Char → List Char × List Char
  | [] => ([], [])
  | c :: rest =>
    if c = '\n' then ([], rest)
    else (c :: (splitLine rest).1, (splitLine rest).2)

/-- `splitFirst p ps l`: `some (a, b)` with `l = a ++ (p :: ps) ++ b` at the
first occurrence of the literal `p :: ps` in `l`, else `none`. -/
def splitFirst (p : Char) (ps : List Char) : List Char → Option (List Char × List Char)
  | [] => none
  | c :: rest =>
    if startsWithSeq (p :: ps) (c :: rest) then some ([], rest.drop ps.length)
    else
      match splitFirst p ps rest with
      | none => none
      | some x => some (c :: x.1, x.2)

theorem splitFirst_append (p : Char) (ps : List Char) : ∀ (l a b : List Char),
    splitFirst p ps l = some (a, b) → l = a ++ (p :: ps) ++ b := by
  intro l
  induction l with
  | nil => intro a b h; simp [splitFirst] at h
  | cons c rest ih =>
    intro a b h
    rw [splitFirst] at h
    split at h
    · rename_i hs
      have he := startsWithSeq_eq (p :: ps) (c :: rest) hs
      simp only [Option.some.injEq, Prod.mk.injEq] at h
      obtain ⟨ha, hb⟩ := h
      subst ha; subst hb
      simpa [List.length_cons, List.drop_succ_cons] using he
    · split at h
      · exact absurd h (by simp)
      · rename_i x hr
        simp only [Option.some.injEq, Prod.mk.injEq] at h
        obtain ⟨ha, hb⟩ := h
        subst ha; subst hb
        have := ih x.1 x.2 hr
        simp [this]

/-- `splitLast p ps l`: like `splitFirst` but at the last occurrence — the
greedy `.*` of `/(<li>.*<\/li>)+/s` reaches the last closing tag. -/
def splitLast (p : Char) (ps : List Char) : List Char → Option (List Char × List Char)
  | [] => none
  | c :: rest =>
    match splitLast p ps rest with
    | some x => some (c :: x.1, x.2)
    | none =>
      if startsWithSeq (p :: ps) (c :: rest) then some ([], rest.drop ps.length)
      else none

theorem splitLast_append (p : Char) (ps : List Char) : ∀ (l a b : List Char),
    splitLast p ps l = some (a, b) → l = a ++ (p :: ps) ++ b := by
  intro l
  induction l with
  | nil => intro a b h; simp [splitLast] at h
  | cons c rest ih =>
    intro a b h
    rw [splitLast] at h
    split at h
    · rename_i x hr
      simp only [Option.some.injEq, Prod.mk.injEq] at h
      obtain ⟨ha, hb⟩ := h
      subst ha; subst hb
      have := ih x.1 x.2 hr
      simp [this]
    · split at h
      · rename_i hs
        have he := startsWithSeq_eq (p :: ps) (c :: rest) hs
        simp only [Option.some.injEq, Prod.mk.injEq] at h
        obtain ⟨ha, hb⟩ := h
        subst ha; subst hb
        simpa [List.length_cons, List.drop_succ_cons] using he
      · simp at h

/-- Global replacement of the literal `p :: ps` by `rep` (JavaScript
`.replace(/fixed/g, rep)`): left to right, non-overlapping, resuming after
each replacement.  The Nat is fuel, one unit per scan step; a step always
consumes at least one character, so `l.length` units never run out. -/
def replaceSeqAux (p : Char) (ps rep : List Char) : Nat → List Char → List Char
  | _, [] => []
  | 0, l => l
  | fuel + 1, c :: rest =>
    if startsWithSeq (p :: ps) (c :: rest) then
      rep ++ replaceSeqAux p ps rep fuel (rest.drop ps.length)
    else c :: replaceSeqAux p ps rep fuel rest

def replaceSeq (p : Char) (ps rep l : List Char) : List Char :=
  replaceSeqAux p ps rep l.length l

/-- `.replace(/###\s+(.*?)(\n|$)/g, "<h3>$1</h3>")` of `markdownToHtml`
(`part_000` line 52): after `###` the greedy `\s+` eats the whitespace run,
the lazy group captures up to the first newline (consumed) or the end.
Fuel as in `replaceSeqAux`. -/
def replaceH3Aux : Nat → List Char → List Char
  | _, [] => []
  | 0, l => l
  | fuel + 1, '#' :: '#' :: '#' :: c :: rest =>
    if jsWhitespace c then
      "<h3>".toList ++ (splitLine ((c :: rest).dropWhile jsWhitespace)).1
        ++ "</h3>".toList
        ++ replaceH3Aux fuel (splitLine ((c :: rest).dropWhile jsWhitespace)).2
    else '#' :: replaceH3Aux fuel ('#' :: '#' :: c :: rest)
  | fuel + 1, c :: rest => c :: replaceH3Aux fuel rest

def replaceH3 (l : List Char) : List Char := replaceH3Aux l.length l

/-- The lazy close search of `/\*\*(.*?)\*\*/g`: the captured characters up to
the first `**` on the same line (`.` does not cross a newline), with the rest
after the closing `**`; `none` when there is no close. -/
def findStrongClose : List Char → Option (List Char × List Char)
  | [] => none
  | [_] => none
  | c :: d :: rest =>
    if c = '*' ∧ d = '*' then some ([], rest)
    else if c = '\n' then none
    else
      match findStrongClose (d :: rest) with
      | none => none
      | some x => some (c :: x.1, x.2)

/-- `.replace(/\*\*(.*?)\*\*/g, "<strong>$1</strong>")` (`part_000` line 54).
Fuel as in `replaceSeqAux`. -/
def replaceStrongAux : Nat → List Char → List Char
  | _, [] => []
  | 0, l => l
  | fuel + 1, '*' :: '*' :: rest =>
    (match findStrongClose rest with
     | some x => "<strong>".toList ++ x.1 ++ "</strong>".toList ++ replaceStrongAux fuel x.2
     | none => '*' :: replaceStrongAux fuel ('*' :: rest))
  | fuel + 1, c :: rest => c :: replaceStrongAux fuel rest

def replaceStrong (l : List Char) : List Char := replaceStrongAux l.length l

/-- `.replace(/^\*\s+(.*?)(\n|$)/gm, "<li>$1</li>")` (`part_000` line 56).
The Bool is true exactly when the scan position is at a line start, where the
multiline `^` can match.  Fuel as in `replaceSeqAux`. -/
def replaceLiAux : Nat → Bool → List Char → List Char
  | _, _, [] => []
  | 0, _, l => l
  | fuel + 1, true, '*' :: c :: rest =>
    if jsWhitespace c then
      "<li>".toList ++ (splitLine ((c :: rest).dropWhile jsWhitespace)).1
        ++ "</li>".toList
        ++ replaceLiAux fuel true (splitLine ((c :: rest).dropWhile jsWhitespace)).2
    else '*' :: replaceLiAux fuel false (c :: rest)
  | fuel + 1, _, c :: rest =>
    if c = '\n' then '\n' :: replaceLiAux fuel true rest
    else c :: replaceLiAux fuel false rest

def replaceLi (l : List Char) : List Char := replaceLiAux l.length true l

/-- `.replace(/(<li>.*<\/li>)+/gs, "<ul>$&<\/ul>")` (`part_000` line 57): with
the `s` flag the greedy match runs from the first `<li>` to the last `</li>`,
and the whole match is wrapped once.  Fuel as in `replaceSeqAux` (a
replacement consumes the whole match, at least nine characters). -/
def replaceUlAux : Nat → List Char → List Char
  | 0, l => l
  | fuel + 1, l =>
    match splitFirst '<' ['l', 'i', '>'] l with
    | none => l
    | some x =>
      match splitLast '<' ['/', 'l', 'i', '>'] x.2 with
      | none => l
      | some y =>
        x.1 ++ "<ul><li>".toList ++ y.1 ++ "</li></ul>".toList ++ replaceUlAux fuel y.2

def replaceUl (l : List Char) : List Char := replaceUlAux l.length l

/-- `markdownToHtml` (`part_000` lines 49-64): the five regex passes in source
order, then the paragraph wrapping (`/^/` prepends `<p>`, `/$/` appends
`</p>`) and the removal of empty `<p></p>` artifacts. -/
def markdownToHtml (text : String) : String :=
  let t1 := replaceH3 text.toList
  let t2 := replaceStrong t1
  let t3 := replaceLi t2
  let t4 := replaceUl t3
  let t5 := replaceSeq '\n' ['\n'] "</p><p>".toList t4
  let t6 := replaceSeq '\n' [] "<br>".toList t5
  let t7 := '<' :: 'p' :: '>' :: (t6 ++ "</p>".toList)
  ⟨replaceSeq '<' "p></p>".toList [] t7⟩

/-- One character of the HTML text-serialization the browser performs in
`escapeHtml` (`app.js` lines 2-6): `div.textContent = text` makes a text node
and `div.innerHTML` serializes it, entity-encoding `&`, `<` and `>`. -/
def escapeChar (c : Char) : List Char :=
  if c = '&' then ['&', 'a', 'm', 'p', ';']
  else if c = '<' then ['&', 'l', 't', ';']
  else if c = '>' then ['&', 'g', 't', ';']
  else [c]

/-- `escapeHtml` (`app.js` lines 2-6, `part_000` lines 2-6): the
textContent/innerHTML round trip, i.e. HTML text-node serialization of the
whole string. -/
def escapeHtml (text : String) : String := ⟨(text.toList.map escapeChar).flatten⟩

/-- How a browser turns markup back into text in HTML content context,
restricted to the entities the serializer of `escapeHtml` emits: the
specification-side reading of "renders as visible literal text". -/
def unescapeEntities : List Char → List Char
  | [] => []
  | c :: rest =>
    if c = '&' then
      if startsWithSeq ['a', 'm', 'p', ';'] rest then '&' :: unescapeEntities (rest.drop 4)
      else if startsWithSeq ['l', 't', ';'] rest then '<' :: unescapeEntities (rest.drop 3)
      else if startsWithSeq ['g', 't', ';'] rest then '>' :: unescapeEntities (rest.drop 3)
      else '&' :: unescapeEntities rest
    else c :: unescapeEntities rest
termination_by l => l.length
decreasing_by
  all_goals simp only [List.length_drop, List.length_cons]; omega

/-- `containsChar x l`: some character of `l` is `x`. -/
def containsChar (x : Char) : List Char → Bool
  | [] => false
  | c :: rest => if c = x then true else containsChar x rest

/-- `occursIn pat s`: the literal string `pat` occurs inside `s`. -/
def occursIn (pat s : String) : Bool :=
  match pat.toList with
  | [] => true
  | p :: ps => (splitFirst p ps s.toList).isSome

/-- `occCountAux p ps fuel l`: how many non-overlapping occurrences of
`p :: ps` are in `l`, counted left to right; fuel as in `replaceSeqAux`. -/
def occCountAux (p : Char) (ps : List Char) : Nat → List Char → Nat
  | 0, _ => 0
  | fuel + 1, l =>
    match splitFirst p ps l with
    | none => 0
    | some x => 1 + occCountAux p ps fuel x.2

def occCount (p : Char) (ps l : List Char) : Nat := occCountAux p ps l.length l

/-- The DOM/script state the submit handlers read and write: the text input's
value, its disabled flag, whether it has focus, the submit button's caption,
the chat box contents, and the module-scoped `history` array. -/
structure UiState where
  inputValue : String
  inputDisabled : Bool
  buttonLabel : String
  inputFocused : Bool
  chatBox : List PageChunk
  history : List Turn
deriving DecidableEq

/-- The parsed JSON body of a chat response:
`{ success: boolean, response?: string, error?: string }`. -/
structure RespBody where
  success : Bool
  response : String
  error : Option String
deriving DecidableEq

/-- The environment's answer to one `fetch("/api/chat", ...)`: the promise
rejects (network error), or a response arrives with an `ok` flag and a body
that either parses as JSON (`some`) or does not (`none`). -/
inductive NetResult where
  | netError
  | response (ok : Bool) (body : Option RespBody)
deriving DecidableEq

/-- One observable DOM effect of a handler, in program order. -/
inductive DomAction where
  | appendChat (c : PageChunk)
  | setInput (v : String)
  | setDisabled (b : Bool)
  | setLabel (s : String)
  | focusInput
  | fetchReq (message : String) (hist : List Turn)
  | pushHistory (t : Turn)
  | scroll
deriving DecidableEq

/-- The state change of a single DOM action (`fetchReq` and `scroll` do not
change the modelled state). -/
def DomAction.applyTo (st : UiState) : DomAction → UiState
  | appendChat c => { st with chatBox := st.chatBox ++ [c] }
  | setInput v => { st with inputValue := v }
  | setDisabled b => { st with inputDisabled := b }
  | setLabel s => { st with buttonLabel := s }
  | focusInput => { st with inputFocused := true }
  | fetchReq _ _ => st
  | pushHistory t => { st with history := st.history ++ [t] }
  | scroll => st

def applyActions (st : UiState) (acts : List DomAction) : UiState :=
  acts.foldl DomAction.applyTo st

/-- `String.prototype.trim` over the character list model. -/
def jsTrim (s : String) : String :=
  ⟨((s.toList.dropWhile jsWhitespace).reverse.dropWhile jsWhitespace).reverse⟩

/-- JavaScript `x || fallback` on the optional `data.error` string: `null`,
`undefined` and `""` are falsy. -/
def jsOrElse (x : Option String) (d : String) : String :=
  match x with
  | some s => if s = "" then d else s
  | none => d

/-- `addMessage` of `src/static/app.js` (lines 15-32): both senders get
`content.innerHTML = escapeHtml(text)`; the avatar is `🤖` for the bot and
`👤` otherwise. -/
def addMessageSafe (sender text : String) : PageChunk :=
  PageChunk.bubble ("message " ++ sender) (if sender = "bot" then "🤖" else "👤")
    (ContentNode.html (escapeHtml text))

/-- `addMessage` of `src/unnamed/part_000` (lines 16-46): the bot's text goes
through `markdownToHtml` into `innerHTML`, the user's text is assigned as
`textContent`. -/
def addMessageMd (sender text : String) : PageChunk :=
  PageChunk.bubble ("message " ++ sender) (if sender = "bot" then "🤖" else "👤")
    (if sender = "bot" then ContentNode.html (markdownToHtml text)
     else ContentNode.textNode text)

/-- The user line `part_001` concatenates into `chatBox.innerHTML` (line 18). -/
def userHtmlLegacy (text : String) : String :=
  "<div><strong>Tú:</strong> " ++ text ++ "</div>"

/-- The bot line `part_001` concatenates into `chatBox.innerHTML` (line 30). -/
def botHtmlLegacy (text : String) : String :=
  "<div><strong>Bot:</strong> " ++ text ++ "</div>"

/-- `${data.error}` in the `part_001` error line (line 36): an absent field
interpolates as the text `undefined`. -/
def errorTextLegacy : Option String → String
  | some s => s
  | none => "undefined"

/-- The submit handler shared by `src/static/app.js` (lines 34-76) and
`src/unnamed/part_000` (lines 66-108), which differ only in `addMessage`:
trim and bail out on empty; render the user bubble; clear, disable, and
relabel; fetch with the current history; on `!res.ok` or a rejected
`fetch`/`json()` reach the catch bubble; on `success` render the bot bubble
and push the two history entries; on `success:false` render the inline error
bubble; finally re-enable, restore the label, and focus. -/
def submitTraceSafe (render : String → String → PageChunk) (st : UiState)
    (env : NetResult) : List DomAction :=
  let text := jsTrim st.inputValue
  if text = "" then []
  else
    let originalText := st.buttonLabel
    [DomAction.appendChat (render "user" text), DomAction.scroll,
     DomAction.setInput "", DomAction.setDisabled true,
     DomAction.setLabel "Enviando...",
     DomAction.fetchReq text st.history] ++
    (match env with
     | NetResult.netError =>
       [DomAction.appendChat
          (render "bot" "No se pudo conectar con el servidor. ¿Está corriendo tu backend?"),
        DomAction.scroll]
     | NetResult.response false _ =>
       [DomAction.appendChat
          (render "bot" "No se pudo conectar con el servidor. ¿Está corriendo tu backend?"),
        DomAction.scroll]
     | NetResult.response true none =>
       [DomAction.appendChat
          (render "bot" "No se pudo conectar con el servidor. ¿Está corriendo tu backend?"),
        DomAction.scroll]
     | NetResult.response true (some b) =>
       if b.success then
         [DomAction.appendChat (render "bot" b.response), DomAction.scroll,
          DomAction.pushHistory ⟨"Usuario", text⟩,
          DomAction.pushHistory ⟨"Bot", b.response⟩]
       else
         [DomAction.appendChat
            (render "bot" ("Error: " ++ jsOrElse b.error "Algo salió mal")),
          DomAction.scroll]) ++
    [DomAction.setDisabled false, DomAction.setLabel originalText,
     DomAction.focusInput]

def traceSafe (st : UiState) (env : NetResult) : List DomAction :=
  submitTraceSafe addMessageSafe st env

def traceMd (st : UiState) (env : NetResult) : List DomAction :=
  submitTraceSafe addMessageMd st env

/-- The submit handler of `src/unnamed/part_001` (lines 11-41): trim and bail
out on empty; append the raw user line; fetch; `res.json()` without an
`res.ok` check; on `success` append the raw bot line and push the two history
entries, else append the raw error line; then clear the input and scroll.
There is no try/catch: a rejected `fetch` or `json()` aborts the handler
right there, so nothing after the fetch runs in those cases. -/
def traceLegacy (st : UiState) (env : NetResult) : List DomAction :=
  let text := jsTrim st.inputValue
  if text = "" then []
  else
    [DomAction.appendChat (PageChunk.rawHtml (userHtmlLegacy text)),
     DomAction.fetchReq text st.history] ++
    (match env with
     | NetResult.netError => []
     | NetResult.response _ none => []
     | NetResult.response _ (some b) =>
       (if b.success then
          [DomAction.appendChat (PageChunk.rawHtml (botHtmlLegacy b.response)),
           DomAction.pushHistory ⟨"Usuario", text⟩,
           DomAction.pushHistory ⟨"Bot", b.response⟩]
        else
          [DomAction.appendChat
             (PageChunk.rawHtml
               ("<div style=\"color:red;\">Error: " ++ errorTextLegacy b.error ++ "</div>"))]) ++
       [DomAction.setInput "", DomAction.scroll])

def stepSafe (st : UiState) (env : NetResult) : UiState :=
  applyActions st (traceSafe st env)

def stepMd (st : UiState) (env : NetResult) : UiState :=
  applyActions st (traceMd st env)

def stepLegacy (st : UiState) (env : NetResult) : UiState :=
  applyActions st (traceLegacy st env)

/-- Which of the three shipped implementations of the widget is running. -/
inductive Variant where
  | safe
  | md
  | legacy
deriving DecidableEq

def stepVariant : Variant → UiState → NetResult → UiState
  | Variant.safe => stepSafe
  | Variant.md => stepMd
  | Variant.legacy => stepLegacy

/-- What can happen to the widget between page load and now: the user edits
the input field, or submits the form and the network answers `env`. -/
inductive ChatEvent where
  | edit (s : String)
  | submit (env : NetResult)

def applyEvent (v : Variant) (st : UiState) : ChatEvent → UiState
  | ChatEvent.edit s => { st with inputValue := s }
  | ChatEvent.submit env => stepVariant v st env

def runEvents (v : Variant) (st : UiState) (evs : List ChatEvent) : UiState :=
  evs.foldl (applyEvent v) st

/-- The history shape the widget maintains: turns come in (Usuario, Bot)
pairs, in that order. -/
def alternatesUB : List Turn → Bool
  | [] => true
  | [_] => false
  | u :: b :: rest => u.sender == "Usuario" && (b.sender == "Bot" && alternatesUB rest)

theorem escapeChar_flatten_safe : ∀ (l : List Char),
    unescapeEntities ((l.map escapeChar).flatten) = l ∧
    containsChar '<' ((l.map escapeChar).flatten) = false := by
  intro l
  induction l with
  | nil => exact ⟨by simp [unescapeEntities], rfl⟩
  | cons c rest ih =>
    rw [List.map_cons, List.flatten_cons]
    by_cases h1 : c = '&'
    · subst h1
      simp [escapeChar, unescapeEntities, containsChar, startsWithSeq, ih.1, ih.2]
    · by_cases h2 : c = '<'
      · subst h2
        simp [escapeChar, unescapeEntities, containsChar, startsWithSeq, h1, ih.1, ih.2]
      · by_cases h3 : c = '>'
        · subst h3
          simp [escapeChar, unescapeEntities, containsChar, startsWithSeq, h1, h2, ih.1, ih.2]
        · simp [escapeChar, unescapeEntities, containsChar, h1, h2, h3, ih.1, ih.2]

/-- C5: for every input string `s` (the empty string included) `escapeHtml`
is total and entity-encodes the HTML-special characters: parsing its result
in HTML content context (`unescapeEntities`) yields exactly the characters of
`s`, and the result holds no raw `<`, so no part of `s` can become parsed
markup. -/
theorem c5_escapeHtml_safe (s : String) :
    unescapeEntities (escapeHtml s).toList = s.toList ∧
    containsChar '<' (escapeHtml s).toList = false :=
  escapeChar_flatten_safe s.toList

/-- The spec's adversarial backend reply. -/
def xssPayload : String := "<img src=x onerror=alert(1)>"

/-- C1 (code_bug evidence): on the reply `"<img src=x onerror=alert(1)>"`
the escaping path of `app.js` yields entity-encoded inert text, but the
Markdown path of `part_000` returns the reply with its `<img` tag intact
inside the paragraph wrapper — live markup, not escaped literal text. -/
theorem c1_markdown_path_injects :
    markdownToHtml xssPayload = "<p><img src=x onerror=alert(1)></p>" ∧
    occursIn "<img" (markdownToHtml xssPayload) = true ∧
    escapeHtml xssPayload = "&lt;img src=x onerror=alert(1)&gt;" ∧
    occursIn "<img" (escapeHtml xssPayload) = false := by
  refine ⟨by decide, by decide, by decide, by decide⟩

/-- C2 (code_bug evidence): the `app.js` user bubble entity-escapes the text
and the `part_000` user bubble assigns it as `textContent`, but `part_001`
splices the raw user text into `chatBox.innerHTML`, so the submitted string
`"<img src=x onerror=alert(1)>"` reaches the page as a live `<img` tag. -/
theorem c2_legacy_user_bubble_injects :
    occursIn "<img" (userHtmlLegacy xssPayload) = true ∧
    addMessageSafe "user" xssPayload
      = PageChunk.bubble "message user" "👤" (ContentNode.html (escapeHtml xssPayload)) ∧
    occursIn "<img" (escapeHtml xssPayload) = false ∧
    addMessageMd "user" xssPayload
      = PageChunk.bubble "message user" "👤" (ContentNode.textNode xssPayload) := by
  refine ⟨by decide, by decide, by decide, by decide⟩

/-- The Markdown document of the spec's conversion test. -/
def mdDoc : String := "### Title\n**bold** text\n* item1\n* item2"

/-- C6: converting `"### Title\n**bold** text\n* item1\n* item2"` yields one
`<ul>` block holding exactly `<li>item1</li><li>item2</li>`, an
`<h3>Title</h3>`, a `<strong>bold</strong>`, with the whole output enclosed
in `<p>...</p>` and no empty `<p></p>` left. -/
theorem c6_markdown_example :
    markdownToHtml mdDoc
      = "<p><h3>Title</h3><strong>bold</strong> text<br><ul><li>item1</li><li>item2</li></ul></p>" ∧
    occCount '<' "ul>".toList (markdownToHtml mdDoc).toList = 1 ∧
    occCount '<' "/ul>".toList (markdownToHtml mdDoc).toList = 1 ∧
    occursIn "<ul><li>item1</li><li>item2</li></ul>" (markdownToHtml mdDoc) = true ∧
    occCount '<' "li>".toList (markdownToHtml mdDoc).toList = 2 ∧
    occursIn "<h3>Title</h3>" (markdownToHtml mdDoc) = true ∧
    occursIn "<strong>bold</strong>" (markdownToHtml mdDoc) = true ∧
    (markdownToHtml mdDoc).toList.take 3 = "<p>".toList ∧
    (markdownToHtml mdDoc).toList.reverse.take 4 = "</p>".toList.reverse ∧
    occursIn "<p></p>" (markdownToHtml mdDoc) = false := by
  refine ⟨by decide, by decide, by decide, by decide, by decide,
    by decide, by decide, by decide, by decide, by decide⟩

/-- A submit whose input trims to the empty string is a complete no-op in
all three variants: the handler performs no action (empty trace) and the
state — history, input, button, chat box — is exactly what it was. -/
theorem submit_noop_of_empty (st : UiState) (env : NetResult)
    (h : jsTrim st.inputValue = "") :
    stepSafe st env = st ∧ traceSafe st env = [] ∧
    stepMd st env = st ∧ traceMd st env = [] ∧
    stepLegacy st env = st ∧ traceLegacy st env = [] := by
  refine ⟨?_, ?_, ?_, ?_, ?_, ?_⟩ <;>
    simp [stepSafe, stepMd, stepLegacy, traceSafe, traceMd, traceLegacy,
      submitTraceSafe, applyActions, h]

/-- C9: a submit whose input trims to the empty string is a complete no-op in
all three variants: no bubble is rendered, no request is issued (the trace is
empty), and history, input state and button label are unchanged. -/
theorem c9_empty_submit_noop (st : UiState) (env : NetResult)
    (h : jsTrim st.inputValue = "") :
    stepSafe st env = st ∧ traceSafe st env = [] ∧
    stepMd st env = st ∧ traceMd st env = [] ∧
    stepLegacy st env = st ∧ traceLegacy st env = [] :=
  submit_noop_of_empty st env h

/-- A state whose input holds only whitespace. -/
def stBlankDemo : UiState := ⟨"   ", false, "Enviar", false, [], []⟩

theorem c9_empty_submit_noop_witness :
    stepSafe stBlankDemo NetResult.netError = stBlankDemo ∧
    traceLegacy stBlankDemo NetResult.netError = [] :=
  ⟨(c9_empty_submit_noop stBlankDemo NetResult.netError (by decide)).1,
   (c9_empty_submit_noop stBlankDemo NetResult.netError (by decide)).2.2.2.2.2⟩

/-- A successful exchange appends exactly the user turn then the bot turn to
`history`, in all three variants. -/
theorem submit_success_history (st : UiState) (b : RespBody)
    (hne : jsTrim st.inputValue ≠ "") (hs : b.success = true) :
    (stepSafe st (NetResult.response true (some b))).history
      = st.history ++ [⟨"Usuario", jsTrim st.inputValue⟩, ⟨"Bot", b.response⟩] ∧
    (stepMd st (NetResult.response true (some b))).history
      = st.history ++ [⟨"Usuario", jsTrim st.inputValue⟩, ⟨"Bot", b.response⟩] ∧
    ∀ ok : Bool, (stepLegacy st (NetResult.response ok (some b))).history
      = st.history ++ [⟨"Usuario", jsTrim st.inputValue⟩, ⟨"Bot", b.response⟩] := by
  refine ⟨?_, ?_, fun ok => ?_⟩ <;>
    simp [stepSafe, stepMd, stepLegacy, traceSafe, traceMd, traceLegacy,
      submitTraceSafe, applyActions, DomAction.applyTo, hne, hs]

/-- C3: when the exchange succeeds (body parsed, `success` true — in the two
try/catch variants this requires `res.ok`, which `part_001` never checks),
the handler appends exactly two entries to `history`, in order the user turn
with the trimmed submitted text and then the bot turn with the backend's
response string, and performs no other history mutation. -/
theorem c3_success_appends_two (st : UiState) (b : RespBody)
    (hne : jsTrim st.inputValue ≠ "") (hs : b.success = true) :
    (stepSafe st (NetResult.response true (some b))).history
      = st.history ++ [⟨"Usuario", jsTrim st.inputValue⟩, ⟨"Bot", b.response⟩] ∧
    (stepMd st (NetResult.response true (some b))).history
      = st.history ++ [⟨"Usuario", jsTrim st.inputValue⟩, ⟨"Bot", b.response⟩] ∧
    ∀ ok : Bool, (stepLegacy st (NetResult.response ok (some b))).history
      = st.history ++ [⟨"Usuario", jsTrim st.inputValue⟩, ⟨"Bot", b.response⟩] :=
  submit_success_history st b hne hs

/-- A state with a pending nonempty input. -/
def stReadyDemo : UiState := ⟨"hola", false, "Enviar", true, [], []⟩

/-- A parsed success body. -/
def okBodyDemo : RespBody := ⟨true, "Hola!", none⟩

theorem c3_success_appends_two_witness :
    (stepSafe stReadyDemo (NetResult.response true (some okBodyDemo))).history
      = stReadyDemo.history
        ++ [⟨"Usuario", jsTrim stReadyDemo.inputValue⟩, ⟨"Bot", okBodyDemo.response⟩] :=
  (c3_success_appends_two stReadyDemo okBodyDemo (by decide) (by decide)).1

/-- The exchange outcomes the try/catch variants treat as success: `res.ok`,
a parsed body, and `success: true`; anything else (network rejection,
non-2xx, parse failure, `success: false`) ends in the catch or else branch. -/
def exchangeSucceedsChecked : NetResult → Bool
  | NetResult.response true (some b) => b.success
  | _ => false

/-- The outcomes `part_001` treats as success: it never reads `res.ok`, so
only a rejected promise, a parse failure, or `success: false` fail. -/
def exchangeSucceedsUnchecked : NetResult → Bool
  | NetResult.response _ (some b) => b.success
  | _ => false

/-- C4: whenever the exchange fails — the body's success flag is false, or
the request/parse throws (which for `app.js`/`part_000` includes any non-2xx
status) — `history` after the handler equals `history` before it, in every
variant. -/
theorem c4_failure_preserves_history (st : UiState) (env : NetResult) :
    (exchangeSucceedsChecked env = false →
      (stepSafe st env).history = st.history ∧
      (stepMd st env).history = st.history) ∧
    (exchangeSucceedsUnchecked env = false →
      (stepLegacy st env).history = st.history) := by
  by_cases hne : jsTrim st.inputValue = ""
  · exact ⟨fun _ => ⟨by simp [(submit_noop_of_empty st env hne).1],
      by simp [(submit_noop_of_empty st env hne).2.2.1]⟩,
      fun _ => by simp [(submit_noop_of_empty st env hne).2.2.2.2.1]⟩
  · cases env with
    | netError =>
      refine ⟨fun _ => ⟨?_, ?_⟩, fun _ => ?_⟩ <;>
        simp [stepSafe, stepMd, stepLegacy, traceSafe, traceMd, traceLegacy,
          submitTraceSafe, applyActions, DomAction.applyTo, hne]
    | response ok body =>
      cases body with
      | none =>
        cases ok <;>
          (refine ⟨fun _ => ⟨?_, ?_⟩, fun _ => ?_⟩ <;>
            simp [stepSafe, stepMd, stepLegacy, traceSafe, traceMd, traceLegacy,
              submitTraceSafe, applyActions, DomAction.applyTo, hne])
      | some b =>
        cases hb : b.success with
        | true =>
          refine ⟨fun hc => ?_, fun hc => ?_⟩
          · cases ok <;> simp [exchangeSucceedsChecked, hb] at hc ⊢
            simp [stepSafe, stepMd, traceSafe, traceMd, submitTraceSafe,
              applyActions, DomAction.applyTo, hne]
          · simp [exchangeSucceedsUnchecked, hb] at hc
        | false =>
          cases ok <;>
            (refine ⟨fun _ => ⟨?_, ?_⟩, fun _ => ?_⟩ <;>
              simp [stepSafe, stepMd, stepLegacy, traceSafe, traceMd, traceLegacy,
                submitTraceSafe, applyActions, DomAction.applyTo, hne, hb])

theorem c4_failure_preserves_history_witness :
    (stepSafe stReadyDemo NetResult.netError).history = stReadyDemo.history ∧
    (stepLegacy stReadyDemo NetResult.netError).history = stReadyDemo.history :=
  ⟨((c4_failure_preserves_history stReadyDemo NetResult.netError).1 rfl).1,
   (c4_failure_preserves_history stReadyDemo NetResult.netError).2 rfl⟩

/-- C7 (amended): after any nonempty submit, the `finally` block of
`app.js` and `part_000` leaves the input enabled and focused and the button
label restored to its pre-submission text, whatever the outcome; `part_001`
has no busy state at all, so there the enabled flag, the focus, and the label
are simply unchanged from before the submit — in particular nothing focuses
the input. -/
theorem c7_input_state_restored (st : UiState) (env : NetResult)
    (hne : jsTrim st.inputValue ≠ "") :
    ((stepSafe st env).inputDisabled = false ∧
     (stepSafe st env).inputFocused = true ∧
     (stepSafe st env).buttonLabel = st.buttonLabel) ∧
    ((stepMd st env).inputDisabled = false ∧
     (stepMd st env).inputFocused = true ∧
     (stepMd st env).buttonLabel = st.buttonLabel) ∧
    ((stepLegacy st env).inputDisabled = st.inputDisabled ∧
     (stepLegacy st env).inputFocused = st.inputFocused ∧
     (stepLegacy st env).buttonLabel = st.buttonLabel) := by
  cases env with
  | netError =>
    refine ⟨⟨?_, ?_, ?_⟩, ⟨?_, ?_, ?_⟩, ⟨?_, ?_, ?_⟩⟩ <;>
      simp [stepSafe, stepMd, stepLegacy, traceSafe, traceMd, traceLegacy,
        submitTraceSafe, applyActions, DomAction.applyTo, hne]
  | response ok body =>
    cases body with
    | none =>
      cases ok <;>
        (refine ⟨⟨?_, ?_, ?_⟩, ⟨?_, ?_, ?_⟩, ⟨?_, ?_, ?_⟩⟩ <;>
          simp [stepSafe, stepMd, stepLegacy, traceSafe, traceMd, traceLegacy,
            submitTraceSafe, applyActions, DomAction.applyTo, hne])
    | some b =>
      cases ok <;> cases hb : b.success <;>
        (refine ⟨⟨?_, ?_, ?_⟩, ⟨?_, ?_, ?_⟩, ⟨?_, ?_, ?_⟩⟩ <;>
          simp [stepSafe, stepMd, stepLegacy, traceSafe, traceMd, traceLegacy,
            submitTraceSafe, applyActions, DomAction.applyTo, hne, hb])

theorem c7_input_state_restored_witness :
    (stepSafe stReadyDemo NetResult.netError).inputFocused = true ∧
    (stepSafe stReadyDemo NetResult.netError).buttonLabel = stReadyDemo.buttonLabel :=
  ⟨((c7_input_state_restored stReadyDemo NetResult.netError (by decide)).1).2.1,
   ((c7_input_state_restored stReadyDemo NetResult.netError (by decide)).1).2.2⟩

/-- A ready state whose input does not have focus (the user clicked the
button instead of pressing Enter). -/
def stUnfocusedDemo : UiState := ⟨"hola", false, "Enviar", false, [], []⟩

/-- The environment reply used by the concrete counterexamples: HTTP 200
with body `{"success": true, "response": "Hola!"}`. -/
def envOkDemo : NetResult := NetResult.response true (some ⟨true, "Hola!", none⟩)

/-- C7 counterexample: a successful nonempty submit in the `part_001` variant
from an unfocused input leaves the input unfocused — the handler never calls
`input.focus()` — refuting "the input has focus" as stated over every
variant. -/
theorem c7_counterexample :
    jsTrim stUnfocusedDemo.inputValue = "hola" ∧
    (stepLegacy stUnfocusedDemo envOkDemo).inputFocused = false := by
  refine ⟨by decide, by decide⟩

def isFetchAct : DomAction → Bool
  | DomAction.fetchReq _ _ => true
  | _ => false

def isRenderAct : DomAction → Bool
  | DomAction.appendChat _ => true
  | _ => false

def isClearInputAct : DomAction → Bool
  | DomAction.setInput v => v == ""
  | _ => false

/-- `part_001` never clears the input when the fetch promise rejects: the
handler aborts at the await and line 39 is not reached. -/
theorem traceLegacy_no_clear_netError (st : UiState) :
    (traceLegacy st NetResult.netError).any isClearInputAct = false := by
  by_cases hne : jsTrim st.inputValue = "" <;>
    simp [traceLegacy, isClearInputAct, hne]

/-- `part_001` never clears the input when `res.json()` rejects (whatever the
HTTP status was): the handler aborts there and line 39 is not reached. -/
theorem traceLegacy_no_clear_badParse (st : UiState) (ok : Bool) :
    (traceLegacy st (NetResult.response ok none)).any isClearInputAct = false := by
  by_cases hne : jsTrim st.inputValue = "" <;>
    simp [traceLegacy, isClearInputAct, hne]

/-- When the body does parse, `part_001` does clear the input (line 39 runs
after either branch on `data.success`). -/
theorem traceLegacy_clear_on_parsed (st : UiState) (ok : Bool) (b : RespBody)
    (hne : jsTrim st.inputValue ≠ "") :
    (traceLegacy st (NetResult.response ok (some b))).any isClearInputAct = true := by
  cases hb : b.success <;> simp [traceLegacy, isClearInputAct, hne, hb]

/-- C8 (amended): on every nonempty submit all three variants render the
user bubble strictly before issuing the request, and `app.js`/`part_000`
also clear the input strictly before it; `part_001` instead clears the input
only after the response is handled — strictly after the fetch, and only when
a body was parsed — and not at all when the request or the JSON parse
throws. -/
theorem c8_clear_before_fetch_amended (st : UiState) (env : NetResult)
    (hne : jsTrim st.inputValue ≠ "") :
    ((traceSafe st env).any isFetchAct = true ∧
     (traceSafe st env).findIdx isRenderAct < (traceSafe st env).findIdx isFetchAct ∧
     (traceSafe st env).findIdx isClearInputAct < (traceSafe st env).findIdx isFetchAct) ∧
    ((traceMd st env).any isFetchAct = true ∧
     (traceMd st env).findIdx isRenderAct < (traceMd st env).findIdx isFetchAct ∧
     (traceMd st env).findIdx isClearInputAct < (traceMd st env).findIdx isFetchAct) ∧
    ((traceLegacy st env).any isFetchAct = true ∧
     (traceLegacy st env).findIdx isRenderAct < (traceLegacy st env).findIdx isFetchAct ∧
     (traceLegacy st env).findIdx isFetchAct < (traceLegacy st env).findIdx isClearInputAct ∧
     (traceLegacy st NetResult.netError).any isClearInputAct = false ∧
     (∀ ok : Bool,
        (traceLegacy st (NetResult.response ok none)).any isClearInputAct = false) ∧
     (∀ (ok : Bool) (b : RespBody),
        (traceLegacy st (NetResult.response ok (some b))).any isClearInputAct = true)) := by
  cases env with
  | netError =>
    refine ⟨⟨?_, ?_, ?_⟩, ⟨?_, ?_, ?_⟩,
      ⟨?_, ?_, ?_, traceLegacy_no_clear_netError st,
       fun ok => traceLegacy_no_clear_badParse st ok,
       fun ok b => traceLegacy_clear_on_parsed st ok b hne⟩⟩ <;>
      (simp [traceSafe, traceMd, traceLegacy, submitTraceSafe, hne,
        isFetchAct, isRenderAct, isClearInputAct, List.findIdx_cons]; try omega)
  | response ok body =>
    cases body with
    | none =>
      cases ok <;>
        (refine ⟨⟨?_, ?_, ?_⟩, ⟨?_, ?_, ?_⟩,
          ⟨?_, ?_, ?_, traceLegacy_no_clear_netError st,
           fun ok => traceLegacy_no_clear_badParse st ok,
           fun ok b => traceLegacy_clear_on_parsed st ok b hne⟩⟩ <;>
          (simp [traceSafe, traceMd, traceLegacy, submitTraceSafe, hne,
            isFetchAct, isRenderAct, isClearInputAct, List.findIdx_cons]; try omega))
    | some b =>
      cases ok <;> cases hb : b.success <;>
        (refine ⟨⟨?_, ?_, ?_⟩, ⟨?_, ?_, ?_⟩,
          ⟨?_, ?_, ?_, traceLegacy_no_clear_netError st,
           fun ok => traceLegacy_no_clear_badParse st ok,
           fun ok b => traceLegacy_clear_on_parsed st ok b hne⟩⟩ <;>
          (simp [traceSafe, traceMd, traceLegacy, submitTraceSafe, hne, hb,
            isFetchAct, isRenderAct, isClearInputAct, List.findIdx_cons]; try omega))

theorem c8_clear_before_fetch_amended_witness :
    (traceSafe stReadyDemo envOkDemo).findIdx isClearInputAct
      < (traceSafe stReadyDemo envOkDemo).findIdx isFetchAct ∧
    (traceLegacy stReadyDemo envOkDemo).findIdx isFetchAct
      < (traceLegacy stReadyDemo envOkDemo).findIdx isClearInputAct :=
  ⟨((c8_clear_before_fetch_amended stReadyDemo envOkDemo (by decide)).1).2.2,
   ((c8_clear_before_fetch_amended stReadyDemo envOkDemo (by decide)).2.2).2.2.1⟩

/-- C8 counterexample: in the `part_001` variant, on a concrete successful
submit the clear of the input field appears in the action trace strictly
after the fetch (and the clear does occur), so "sets the input to the empty
string strictly before the network request ... in every variant" is false. -/
theorem c8_counterexample :
    (traceLegacy stReadyDemo envOkDemo).findIdx isFetchAct
      < (traceLegacy stReadyDemo envOkDemo).findIdx isClearInputAct ∧
    (traceLegacy stReadyDemo envOkDemo).any isClearInputAct = true := by
  refine ⟨by decide, by decide⟩

theorem alternatesUB_append_pair : ∀ (l : List Turn) (u b : String),
    alternatesUB (l ++ [⟨"Usuario", u⟩, ⟨"Bot", b⟩]) = alternatesUB l
  | [], u, b => by simp [alternatesUB]
  | [t], u, b => by simp [alternatesUB]
  | a :: c :: l, u, b => by
    simp only [List.cons_append, alternatesUB, List.append_eq]
    rw [alternatesUB_append_pair l u b]

theorem alternatesUB_spec : ∀ (l : List Turn), alternatesUB l = true →
    l.length % 2 = 0 ∧
    ∀ i, (hi : i < l.length) →
      (l.get ⟨i, hi⟩).sender = (if i % 2 = 0 then "Usuario" else "Bot")
  | [], _ => ⟨rfl, fun i hi => absurd hi (by simp)⟩
  | [t], h => by simp [alternatesUB] at h
  | a :: c :: l, h => by
    simp only [alternatesUB, Bool.and_eq_true, beq_iff_eq] at h
    obtain ⟨ha, hc, hl⟩ := h
    have ih := alternatesUB_spec l hl
    refine ⟨?_, ?_⟩
    · have := ih.1
      simp only [List.length_cons]
      omega
    · intro i hi
      cases i with
      | zero => simpa using ha
      | succ i1 =>
        cases i1 with
        | zero => simpa using hc
        | succ j =>
          have hj : j < l.length := by
            simp only [List.length_cons] at hi
            omega
          have hg := ih.2 j hj
          have he : ((a :: c :: l).get ⟨j + 1 + 1, hi⟩) = l.get ⟨j, hj⟩ := rfl
          have hm : (j + 1 + 1) % 2 = j % 2 := by omega
          rw [he, hg, hm]

/-- A submit changes `history` in one way only: either not at all, or by
appending one `Usuario` turn carrying the trimmed input followed by one `Bot`
turn.  This is the common shape of the three handlers' success branches. -/
theorem stepVariant_history (v : Variant) (st : UiState) (env : NetResult) :
    (stepVariant v st env).history = st.history ∨
    ∃ r, (stepVariant v st env).history
      = st.history ++ [⟨"Usuario", jsTrim st.inputValue⟩, ⟨"Bot", r⟩] := by
  by_cases hne : jsTrim st.inputValue = ""
  · left
    cases v with
    | safe => rw [show stepVariant Variant.safe st env = stepSafe st env from rfl,
        (submit_noop_of_empty st env hne).1]
    | md => rw [show stepVariant Variant.md st env = stepMd st env from rfl,
        (submit_noop_of_empty st env hne).2.2.1]
    | legacy => rw [show stepVariant Variant.legacy st env = stepLegacy st env from rfl,
        (submit_noop_of_empty st env hne).2.2.2.2.1]
  · cases env with
    | netError =>
      left
      cases v <;>
        simp [stepVariant, stepSafe, stepMd, stepLegacy, traceSafe, traceMd,
          traceLegacy, submitTraceSafe, applyActions, DomAction.applyTo, hne]
    | response ok body =>
      cases body with
      | none =>
        left
        cases v <;> cases ok <;>
          simp [stepVariant, stepSafe, stepMd, stepLegacy, traceSafe, traceMd,
            traceLegacy, submitTraceSafe, applyActions, DomAction.applyTo, hne]
      | some b =>
        cases hb : b.success with
        | true =>
          cases v with
          | safe =>
            cases ok with
            | false =>
              left
              simp [stepVariant, stepSafe, traceSafe, submitTraceSafe,
                applyActions, DomAction.applyTo, hne]
            | true =>
              right
              exact ⟨b.response, (submit_success_history st b hne hb).1⟩
          | md =>
            cases ok with
            | false =>
              left
              simp [stepVariant, stepMd, traceMd, submitTraceSafe,
                applyActions, DomAction.applyTo, hne]
            | true =>
              right
              exact ⟨b.response, (submit_success_history st b hne hb).2.1⟩
          | legacy =>
            right
            exact ⟨b.response, (submit_success_history st b hne hb).2.2 ok⟩
        | false =>
          left
          cases v <;> cases ok <;>
            simp [stepVariant, stepSafe, stepMd, stepLegacy, traceSafe, traceMd,
              traceLegacy, submitTraceSafe, applyActions, DomAction.applyTo, hne, hb]

theorem runEvents_alternates (v : Variant) : ∀ (evs : List ChatEvent) (st : UiState),
    alternatesUB st.history = true →
    alternatesUB (runEvents v st evs).history = true
  | [], st, h => h
  | ev :: evs, st, h => by
    have hstep : alternatesUB (applyEvent v st ev).history = true := by
      cases ev with
      | edit s => simpa [applyEvent]
      | submit env =>
        rcases stepVariant_history v st env with h1 | ⟨r, h1⟩
        · simpa [applyEvent, h1]
        · simp [applyEvent, h1, alternatesUB_append_pair, h]
    have := runEvents_alternates v evs (applyEvent v st ev) hstep
    simpa [runEvents, List.foldl_cons] using this

/-- C10: starting from an empty history, after any sequence of edits and
submits with any outcomes, in any variant, the history has even length and
alternates strictly: every even index is a `Usuario` turn, every odd index a
`Bot` turn. -/
theorem c10_history_alternates (v : Variant) (st0 : UiState) (evs : List ChatEvent)
    (h0 : st0.history = []) :
    (runEvents v st0 evs).history.length % 2 = 0 ∧
    ∀ i, (hi : i < (runEvents v st0 evs).history.length) →
      ((runEvents v st0 evs).history.get ⟨i, hi⟩).sender
        = (if i % 2 = 0 then "Usuario" else "Bot") := by
  have h1 : alternatesUB st0.history = true := by rw [h0]; rfl
  exact alternatesUB_spec _ (runEvents_alternates v evs st0 h1)

/-- The widget state at page load: empty input, empty chat box, empty
history. -/
def stInitDemo : UiState := ⟨"", false, "Enviar", false, [], []⟩

/-- A concrete session: type, successful exchange, then a failed one. -/
def evsDemo : List ChatEvent :=
  [ChatEvent.edit "hola", ChatEvent.submit envOkDemo,
   ChatEvent.edit "y tu", ChatEvent.submit NetResult.netError]

theorem c10_history_alternates_witness :
    (runEvents Variant.safe stInitDemo evsDemo).history.length % 2 = 0 ∧
    (runEvents Variant.safe stInitDemo evsDemo).history.length = 2 :=
  ⟨(c10_history_alternates Variant.safe stInitDemo evsDemo rfl).1, by decide⟩
